import Mathlib

/-!
Verification of the `ht` HTTP-testing engine against its natural-language
specification.  The Go sources are shallowly embedded: Go `error` values
become `Option GoError` (with `none` for a nil error), Go slices become
lists, Go `int` becomes `Int` (overflow is irrelevant at the sizes these
functions handle), and the handful of collaborator services (image codec,
fingerprint library) are abstracted as record-of-functions parameters.
Loops that are not structurally recursive are given explicit fuel; every
use supplies provably sufficient fuel.
-/

namespace Ht

/-- A Go `error` value: either a message built by `fmt.Errorf`, or an
`ErrorList` (a slice of errors) as used by the boolean combinators.
A Go nil error is `Option.none` at use sites. -/
inductive GoError where
  | msg : String → GoError
  | list : List GoError → GoError

/-- A check, reduced to the capability surface the boolean combinators in
`boolean.go` use: `Prepare() error` and `Execute(t *Test) error`.  The test
type is abstract (`T`) since the combinators only pass it through. -/
structure Check (T : Type) where
  prepare : Option GoError
  execute : T → Option GoError

/-- `AnyOne` from `boolean.go`: the short-circuiting OR of the checks `Of`. -/
structure AnyOne (T : Type) where
  Of : List (Check T)

/-- `None` from `boolean.go`: passes iff none of the checks `Of` passes. -/
structure None (T : Type) where
  Of : List (Check T)

/-- The loop body of `AnyOne.Execute`: run checks in order, return nil on the
first nil sub-error, otherwise accumulate every sub-error (in order) into the
`ErrorList` that is returned when the list is exhausted. -/
def anyOneRun {T : Type} (t : T) : List (Check T) → List GoError → Option GoError
  | [], errs => some (GoError.list errs)
  | c :: rest, errs =>
    match c.execute t with
    | none => none
    | some e => anyOneRun t rest (errs ++ [e])

/-- `func (a AnyOne) Execute(t *Test) error` from `boolean.go`. -/
def AnyOne.Execute {T : Type} (a : AnyOne T) (t : T) : Option GoError :=
  anyOneRun t a.Of []

/-- Instrumented variant of the `AnyOne.Execute` loop: identical control flow,
but additionally records the (0-based) index of every sub-check whose
`Execute` is invoked. -/
def anyOneRunTraced {T : Type} (t : T) :
    List (Check T) → List GoError → Nat → Option GoError × List Nat
  | [], errs, _ => (some (GoError.list errs), [])
  | c :: rest, errs, i =>
    match c.execute t with
    | none => (none, [i])
    | some e =>
      let r := anyOneRunTraced t rest (errs ++ [e]) (i + 1)
      (r.1, i :: r.2)

/-- `AnyOne.Execute` together with the indices of the executed sub-checks. -/
def AnyOne.ExecuteTraced {T : Type} (a : AnyOne T) (t : T) :
    Option GoError × List Nat :=
  anyOneRunTraced t a.Of [] 0

/-- The loop body of `None.Execute`: run checks in order; the first one whose
error is nil makes `None` fail with "check i+1 passed" (1-based index as in
the Go `fmt.Errorf("check %d passed", i+1)`); if all fail, return nil. -/
def noneRun {T : Type} (t : T) : List (Check T) → Nat → Option GoError
  | [], _ => none
  | c :: rest, i =>
    match c.execute t with
    | none => some (GoError.msg ("check " ++ toString (i + 1) ++ " passed"))
    | some _ => noneRun t rest (i + 1)

/-- `func (n None) Execute(t *Test) error` from `boolean.go`. -/
def None.Execute {T : Type} (n : None T) (t : T) : Option GoError :=
  noneRun t n.Of 0

/-- Instrumented variant of the `None.Execute` loop recording executed
sub-check indices. -/
def noneRunTraced {T : Type} (t : T) :
    List (Check T) → Nat → Option GoError × List Nat
  | [], _ => (none, [])
  | c :: rest, i =>
    match c.execute t with
    | none => (some (GoError.msg ("check " ++ toString (i + 1) ++ " passed")), [i])
    | some _ =>
      let r := noneRunTraced t rest (i + 1)
      (r.1, i :: r.2)

/-- `None.Execute` together with the indices of the executed sub-checks. -/
def None.ExecuteTraced {T : Type} (n : None T) (t : T) :
    Option GoError × List Nat :=
  noneRunTraced t n.Of 0

/-- The `Prepare` loop shared (textually duplicated) by `AnyOne.Prepare` and
`None.Prepare`: collect the non-nil `Prepare` errors of all sub-checks, in
order, never short-circuiting. -/
def prepareErrs {T : Type} : List (Check T) → List GoError
  | [] => []
  | c :: rest =>
    match c.prepare with
    | none => prepareErrs rest
    | some e => e :: prepareErrs rest

/-- Instrumented `Prepare` loop: also records the index of every sub-check
whose `Prepare` is invoked (which is all of them). -/
def prepareTraced {T : Type} : List (Check T) → Nat → List GoError × List Nat
  | [], _ => ([], [])
  | c :: rest, i =>
    let r := prepareTraced rest (i + 1)
    match c.prepare with
    | none => (r.1, i :: r.2)
    | some e => (e :: r.1, i :: r.2)

/-- `func (a AnyOne) Prepare() error` from `boolean.go`: nil if no sub-check's
`Prepare` errs, else the `ErrorList` of all errors. -/
def AnyOne.Prepare {T : Type} (a : AnyOne T) : Option GoError :=
  let errs := prepareErrs a.Of
  if errs.isEmpty then none else some (GoError.list errs)

/-- `func (n None) Prepare() error` from `boolean.go` (same body as
`AnyOne.Prepare`). -/
def None.Prepare {T : Type} (n : None T) : Option GoError :=
  let errs := prepareErrs n.Of
  if errs.isEmpty then none else some (GoError.list errs)

-- ### Status and the exit code (report.go, cmd/ht/exec.go)

/-- `Status` from `report.go`: the six `iota` constants in declaration
order. -/
inductive Status where
  | NotRun
  | Skipped
  | Pass
  | Fail
  | Error
  | Bogus
deriving DecidableEq, Repr

/-- The underlying Go integer of a `Status` (the `iota` value). -/
def Status.val : Status → Nat
  | .NotRun => 0
  | .Skipped => 1
  | .Pass => 2
  | .Fail => 3
  | .Error => 4
  | .Bogus => 5

/-- Comparison of two statuses is comparison of the underlying Go ints. -/
def Status.lt (s u : Status) : Prop := s.val < u.val

def Status.le (s u : Status) : Prop := s.val ≤ u.val

instance (s u : Status) : Decidable (Status.lt s u) := Nat.decLt s.val u.val

instance (s u : Status) : Decidable (Status.le s u) := Nat.decLe s.val u.val

/-- Binary maximum under the `Status` order. -/
def Status.max (s u : Status) : Status := if s.val < u.val then u else s

/-- "Maximum over children": severity rollup of a list of child statuses
(`NotRun`, the least element, is the neutral seed). -/
def statusMax (l : List Status) : Status := l.foldl Status.max Status.NotRun

/-- The per-run statistics accumulated by `runExecute` in `cmd/ht/exec.go`
(`total`, `totalPass`, `totalError`, `totalSkiped`, `totalFailed`,
`totalBogus`). -/
structure ExecTotals where
  total : Nat
  totalPass : Nat
  totalError : Nat
  totalSkiped : Nat
  totalFailed : Nat
  totalBogus : Nat
deriving DecidableEq, Repr

/-- One iteration of the statistics loop in `runExecute`: the `switch` over
the test's status (`NotRun` has no case) followed by `total++`. -/
def tallyStatus (a : ExecTotals) (s : Status) : ExecTotals :=
  let a' :=
    match s with
    | .Pass => { a with totalPass := a.totalPass + 1 }
    | .Error => { a with totalError := a.totalError + 1 }
    | .Skipped => { a with totalSkiped := a.totalSkiped + 1 }
    | .Fail => { a with totalFailed := a.totalFailed + 1 }
    | .Bogus => { a with totalBogus := a.totalBogus + 1 }
    | .NotRun => a
  { a' with total := a'.total + 1 }

/-- The totals over all executed tests' statuses. -/
def execTotals (l : List Status) : ExecTotals :=
  l.foldl tallyStatus ⟨0, 0, 0, 0, 0, 0⟩

/-- The exit-code selection at the end of `runExecute`: `os.Exit(3)` if any
bogus, else `os.Exit(2)` if any error, else `os.Exit(1)` if any failure,
else `os.Exit(0)`. -/
def exitCode (l : List Status) : Nat :=
  let t := execTotals l
  if t.totalBogus > 0 then 3
  else if t.totalError > 0 then 2
  else if t.totalFailed > 0 then 1
  else 0

-- ### Integer and float parsing helpers (strconv collaborators)

/-- Digit-accumulation loop of `strconv.ParseInt`: every character must be a
decimal digit. -/
def digitsToNatAux : List Char → Nat → Option Nat
  | [], acc => some acc
  | c :: rest, acc =>
    if c.isDigit then digitsToNatAux rest (acc * 10 + (c.toNat - 48)) else none

/-- `strconv.ParseInt(s, 10, 64)` (also `strconv.Atoi` at 64-bit): optional
sign, nonempty digit string, 64-bit range check. -/
def parseInt (s : String) : Option Int :=
  match s.data with
  | [] => none
  | '+' :: rest =>
    if rest.isEmpty then none
    else
      match digitsToNatAux rest 0 with
      | some v => if v ≤ 9223372036854775807 then some (v : Int) else none
      | none => none
  | '-' :: rest =>
    if rest.isEmpty then none
    else
      match digitsToNatAux rest 0 with
      | some v => if v ≤ 9223372036854775808 then some (-(v : Int)) else none
      | none => none
  | ds =>
    match digitsToNatAux ds 0 with
    | some v => if v ≤ 9223372036854775807 then some (v : Int) else none
    | none => none

/-- Numeric value of a digit list (most significant first). -/
def digitsVal (ds : List Char) : Nat :=
  ds.foldl (fun acc c => acc * 10 + (c.toNat - 48)) 0

/-- An exact decimal number `mant * 10 ^ exp`, standing in for the float64
values of the Condition evaluator (only parsing and ordering are needed, and
the decimal magnitudes involved are compared exactly). -/
structure Dec where
  mant : Int
  exp : Int
deriving DecidableEq, Repr

/-- Strict order on decimals by aligning exponents. -/
def Dec.blt (x y : Dec) : Bool :=
  let m := min x.exp y.exp
  x.mant * (10 : Int) ^ (x.exp - m).toNat < y.mant * (10 : Int) ^ (y.exp - m).toNat

/-- Non-strict order on decimals by aligning exponents. -/
def Dec.ble (x y : Dec) : Bool :=
  let m := min x.exp y.exp
  x.mant * (10 : Int) ^ (x.exp - m).toNat ≤ y.mant * (10 : Int) ^ (y.exp - m).toNat

/-- Modelled from the spec: decimal literal parser standing in for
`strconv.ParseFloat` (the Condition evaluator's numeric bounds; the
evaluator itself is not in this snapshot).  Optional sign, digits with
optional fraction, optional decimal exponent, valued exactly as a
decimal. -/
def parseDec (s : String) : Option Dec :=
  let cs := s.data
  let sign : Int := match cs with
    | '-' :: _ => -1
    | _ => 1
  let cs1 := match cs with
    | '-' :: rest => rest
    | '+' :: rest => rest
    | _ => cs
  let intPart := cs1.takeWhile Char.isDigit
  let cs2 := cs1.dropWhile Char.isDigit
  let fracPart := match cs2 with
    | '.' :: rest => rest.takeWhile Char.isDigit
    | _ => []
  let cs3 := match cs2 with
    | '.' :: rest => rest.dropWhile Char.isDigit
    | _ => cs2
  if intPart.isEmpty && fracPart.isEmpty then none
  else
    let mant : Int := sign * (digitsVal (intPart ++ fracPart) : Int)
    match cs3 with
    | [] => some ⟨mant, -(fracPart.length : Int)⟩
    | e :: rest =>
      if e = 'e' ∨ e = 'E' then
        let esign : Int := match rest with
          | '-' :: _ => -1
          | _ => 1
        let rest1 := match rest with
          | '-' :: r => r
          | '+' :: r => r
          | _ => rest
        let eds := rest1.takeWhile Char.isDigit
        let rest2 := rest1.dropWhile Char.isDigit
        if eds.isEmpty || !rest2.isEmpty then none
        else some ⟨mant, esign * (digitsVal eds : Int) - (fracPart.length : Int)⟩
      else none

-- ### The Condition evaluator (spec-modelled; only its tests are in src)

/-- Modelled from the spec: non-overlapping occurrence counting (the
semantics of Go `strings.Count`), used for `Contains`.  Fuel-based scan;
`countOcc` supplies fuel `s.length`, which suffices because each step
consumes at least one character when the pattern is nonempty. -/
def countOccAux (pat : List Char) : Nat → List Char → Nat
  | _, [] => 0
  | 0, _ => 0
  | fuel + 1, c :: rest =>
    if pat.isPrefixOf (c :: rest) then
      1 + countOccAux pat fuel ((c :: rest).drop pat.length)
    else countOccAux pat fuel rest

/-- Occurrence count of `pat` in `s` (`strings.Count` including its
`len(s)+1` convention for an empty pattern). -/
def countOcc (pat s : String) : Nat :=
  if pat.data.isEmpty then s.length + 1 else countOccAux pat.data s.data.length s.data

/-- Modelled from the spec: structured error outcomes of
`Condition.Fulfilled` (numeric errors carry exact values instead of
formatted floats). -/
inductive CondError where
  | unequal (was : String)
  | prefixMismatch (got : String)
  | suffixMismatch (got : String)
  | notFound
  | foundForbidden
  | foundWant (found : Nat) (want : Int)
  | tooShort (was : Int)
  | tooLong (was : Int)
  | parseError (input : String)
  | notGreaterThan (bound was : Dec)
  | notLessThan (bound was : Dec)
deriving DecidableEq, Repr

/-- Modelled from the spec: the `Condition` predicate struct.  Its evaluator
is not part of this source snapshot; §4.1 of the spec plus the
`conditionTests` table define the behaviour.  The Go field `Prefix` is named
`PrefixPat` here; the `Regexp`/compiled-regex path is not modelled (no
regex engine in the embedding) — `Contains` carries the shared `Count`
semantics. -/
structure Condition where
  Equals : String := ""
  PrefixPat : String := ""
  Suffix : String := ""
  Contains : String := ""
  Count : Int := 0
  Min : Int := 0
  Max : Int := 0
  GreaterThan : Option Dec := none
  LessThan : Option Dec := none
deriving DecidableEq, Repr

/-- Quote a string, truncating long actual values to a bounded prefix as the
mismatch messages in `conditionTests` show (16 characters, then "..."). -/
def truncQuote (s : String) : String :=
  if s.length > 16 then "\"" ++ String.mk (s.data.take 16) ++ "\"..."
  else "\"" ++ s ++ "\""

/-- Modelled from the spec: `Contains` occurrence counting against `Count` —
count 0 requires at least one occurrence, count N > 0 exactly N, count < 0
zero occurrences (forbidden). -/
def containsCheck (pat : String) (count : Int) (s : String) : Option CondError :=
  let occ := countOcc pat s
  if count = 0 then
    if occ > 0 then none else some CondError.notFound
  else if count > 0 then
    if (occ : Int) = count then none else some (CondError.foundWant occ count)
  else if occ = 0 then none
  else some CondError.foundForbidden

/-- Modelled from the spec: `Min`/`Max` length bounds (length in characters;
all table strings are ASCII so this coincides with Go's byte length). -/
def lengthCheck (c : Condition) (s : String) : Option CondError :=
  if 0 < c.Min ∧ (s.length : Int) < c.Min then some (CondError.tooShort s.length)
  else if 0 < c.Max ∧ c.Max < (s.length : Int) then some (CondError.tooLong s.length)
  else none

/-- The space characters trimmed before numeric parsing. -/
def goSpaceChars : List Char := [' ', '\t', '\n', '\r']

/-- Trim the cutset from both ends. -/
def trimCutset (cs : List Char) : List Char :=
  ((cs.dropWhile (fun c => goSpaceChars.contains c)).reverse.dropWhile
      (fun c => goSpaceChars.contains c)).reverse

/-- A single-quote character (written by code point to keep the source
plain). -/
def squote : Char := Char.ofNat 39

/-- Strip one matching pair of surrounding single quotes, as the
`conditionTests` numeric rows ("'3'", "'-8.8e1'") require. -/
def stripQuotes (cs : List Char) : List Char :=
  match cs with
  | [] => []
  | c :: rest =>
    if c = squote ∧ rest ≠ [] ∧ rest.getLast? = some squote then rest.dropLast
    else c :: rest

/-- Modelled from the spec: `GreaterThan`/`LessThan` numeric bounds on the
trimmed, quote-stripped string parsed as a number; a parse failure is its own
error; both bounds may combine (open interval), `GreaterThan` judged
first. -/
def numericCheck (c : Condition) (s : String) : Option CondError :=
  match c.GreaterThan, c.LessThan with
  | none, none => none
  | _, _ =>
    match parseDec (String.mk (stripQuotes (trimCutset s.data))) with
    | none => some (CondError.parseError s)
    | some x =>
      match c.GreaterThan with
      | some b =>
        if x.ble b then some (CondError.notGreaterThan b x)
        else
          match c.LessThan with
          | some b2 => if b2.ble x then some (CondError.notLessThan b2 x) else none
          | none => none
      | none =>
        match c.LessThan with
        | some b2 => if b2.ble x then some (CondError.notLessThan b2 x) else none
        | none => none

/-- Modelled from the spec: `Condition.Fulfilled(s)` — `Equals` set compares
exactly and ignores everything else; otherwise prefix, then suffix, then the
`Contains`/`Count` occurrence check, then length bounds, then numeric
bounds; the first violated stage's error is returned. -/
def Condition.Fulfilled (c : Condition) (s : String) : Option CondError :=
  if c.Equals ≠ "" then
    if s = c.Equals then none else some (CondError.unequal (truncQuote s))
  else if c.PrefixPat ≠ "" ∧ ¬ c.PrefixPat.data.isPrefixOf s.data then
    some (CondError.prefixMismatch (String.mk (s.data.take c.PrefixPat.length)))
  else if c.Suffix ≠ "" ∧ ¬ c.Suffix.data.isSuffixOf s.data then
    some (CondError.suffixMismatch (String.mk ((s.data.reverse.take c.Suffix.length).reverse)))
  else
    match (if c.Contains ≠ "" then containsCheck c.Contains c.Count s else none) with
    | some e => some e
    | none =>
      match lengthCheck c s with
      | some e => some e
      | none => numericCheck c s

-- ### Variable substitution, Repeat and unrolling (variables.go)

/-- First pair in `pairs` whose (nonempty) pattern is a prefix of `s`:
the per-position pattern scan of `strings.Replacer` with patterns tried in
argument order.  Returns pattern length and replacement. -/
def firstMatch : List (String × String) → List Char → Option (Nat × String)
  | [], _ => none
  | (o, n) :: ps, s =>
    if !o.data.isEmpty && o.data.isPrefixOf s then some (o.data.length, n)
    else firstMatch ps s

/-- The left-to-right, non-overlapping scan of `strings.Replacer.Replace`,
fuel-based (fuel = remaining length suffices since every step consumes at
least one character; `newReplacer` never creates an empty pattern). -/
def replaceCharsAux (pairs : List (String × String)) : Nat → List Char → List Char
  | _, [] => []
  | 0, s => s
  | fuel + 1, c :: rest =>
    match firstMatch pairs (c :: rest) with
    | some (k, n) => n.data ++ replaceCharsAux pairs fuel ((c :: rest).drop k)
    | none => c :: replaceCharsAux pairs fuel rest

/-- The `replacer` struct of `variables.go`: ordered string-replacement
pairs plus the integer substitutions. -/
structure Replacer where
  str : List (String × String)
  fn : List (Int × Int)
deriving DecidableEq, Repr

/-- `strings.Replacer.Replace`. -/
def Replacer.replace (r : Replacer) (s : String) : String :=
  String.mk (replaceCharsAux r.str s.data.length s.data)

/-- `newReplacer` from `variables.go`: keys starting with "#" become integer
substitutions (both key remainder and value must `ParseInt`, an error aborts);
other keys k become the string pattern pair ("\x7b\x7b"+k+"\x7d\x7d", v).
(Go map iteration order is unspecified; the assoc-list order stands in for
it.) -/
def newReplacer : List (String × String) → Option Replacer
  | [] => some ⟨[], []⟩
  | (k, v) :: rest =>
    if k.data.take 1 = ['#'] then
      match parseInt (String.mk (k.data.drop 1)), parseInt v with
      | some o, some n =>
        match newReplacer rest with
        | some r => some ⟨r.str, (o, n) :: r.fn⟩
        | none => none
      | _, _ => none
    else
      match newReplacer rest with
      | some r => some ⟨("\x7b\x7b" ++ k ++ "\x7d\x7d", v) :: r.str, r.fn⟩
      | none => none

/-- A cookie sent with the request (`Cookie` in the Go sources). -/
structure Cookie where
  Name : String := ""
  Value : String := ""
deriving DecidableEq, Repr

/-- The retry/poll policy referenced by `substituteVariables` (copied
verbatim into the substituted copy). -/
structure Poll where
  Max : Int := 0
  Sleep : Int := 0
deriving DecidableEq, Repr

/-- The request part of a `Test` as touched by `substituteVariables`:
`Method`, `URL`, `ParamsAs` and `Body` are replaced, `FollowRedirects` is
copied, `Params`/`Header` values and cookie values are replaced
element-wise. -/
structure Request where
  Method : String := ""
  URL : String := ""
  ParamsAs : String := ""
  Body : String := ""
  FollowRedirects : Bool := false
  Params : List (String × List String) := []
  Header : List (String × List String) := []
  Cookies : List Cookie := []
deriving DecidableEq, Repr

/-- The `Test` fields `substituteVariables` reads or copies.  `ClientPool`,
`VarEx` and the reflection-substituted `Checks` list concern collaborator
types whose sources are not in this snapshot and are omitted. -/
structure Test where
  Name : String := ""
  Description : String := ""
  Request : Request := {}
  Poll : Poll := {}
  Timeout : Int := 0
  Verbosity : Int := 0
  PreSleep : Int := 0
  InterSleep : Int := 0
  PostSleep : Int := 0
  Criticality : Int := 0
deriving DecidableEq, Repr

/-- `func (t *Test) substituteVariables(repl replacer) *Test` from
`variables.go`. -/
def Test.substituteVariables (t : Test) (repl : Replacer) : Test :=
  { Name := repl.replace t.Name
    Description := repl.replace t.Description
    Request :=
      { Method := repl.replace t.Request.Method
        URL := repl.replace t.Request.URL
        ParamsAs := repl.replace t.Request.ParamsAs
        Body := repl.replace t.Request.Body
        FollowRedirects := t.Request.FollowRedirects
        Params := t.Request.Params.map (fun kv => (kv.1, kv.2.map (fun v => repl.replace v)))
        Header := t.Request.Header.map (fun kv => (kv.1, kv.2.map (fun v => repl.replace v)))
        Cookies := t.Request.Cookies.map (fun ck => ⟨ck.Name, repl.replace ck.Value⟩) }
    Poll := t.Poll
    Timeout := t.Timeout
    Verbosity := t.Verbosity
    PreSleep := t.PreSleep
    InterSleep := t.InterSleep
    PostSleep := t.PostSleep
    Criticality := t.Criticality }

/-- The per-repetition bindings of the `Repeat` loop: in repetition r the
variable k is bound to `vars[k][r % len(vars[k])]`. -/
def cycleBindings (vars : List (String × List String)) (r : Nat) : List (String × String) :=
  vars.map (fun kv => (kv.1, kv.2.getD (r % kv.2.length) ""))

/-- `curVars` construction including the Go runtime failure: indexing
`v[r % len(v)]` with an empty `v` divides by zero (a run-time panic),
modelled as `none`. -/
def curVarsAt (vars : List (String × List String)) (r : Nat) :
    Option (List (String × String)) :=
  if vars.all (fun kv => !kv.2.isEmpty) then some (cycleBindings vars r) else none

/-- The `%q` verb of `fmt.Sprintf` restricted to the escapes that can arise
here (quote and backslash; other control escapes are not modelled). -/
def quoteGo (s : String) : String :=
  "\"" ++
    String.mk (s.data.foldr
      (fun c acc => if c = '"' ∨ c = '\\' then '\\' :: c :: acc else c :: acc) []) ++
    "\""

/-- The description suffix appended by `Repeat`:
one "\nVar k=%q-of-v" line per binding, in binding order. -/
def addVarDesc (t : Test) (curVars : List (String × String)) : Test :=
  { t with
    Description :=
      curVars.foldl (fun d kv => d ++ "\nVar " ++ kv.1 ++ "=" ++ quoteGo kv.2) t.Description }

/-- One iteration of the `Repeat` loop body for repetition `r`. -/
def repOne (test : Test) (vars : List (String × List String)) (r : Nat) : Option Test :=
  match curVarsAt vars r with
  | none => none
  | some curVars =>
    match newReplacer curVars with
    | none => none
    | some repl => some (addVarDesc (test.substituteVariables repl) curVars)

/-- The `for r := 0; r < count; r++` loop of `Repeat`, aborting on the first
error. -/
def repeatLoop (test : Test) (vars : List (String × List String)) :
    Nat → Nat → Option (List Test)
  | 0, _ => some []
  | k + 1, r =>
    match repOne test vars r with
    | none => none
    | some tr =>
      match repeatLoop test vars k (r + 1) with
      | none => none
      | some rest => some (tr :: rest)

/-- `func Repeat(test *Test, count int, vars map[string][]string)` from
`variables.go` (`none` covers both the error return and the index panic). -/
def Repeat (test : Test) (count : Nat) (vars : List (String × List String)) :
    Option (List Test) :=
  repeatLoop test vars count 0

/-- The replacer `newReplacer` yields when no key is an integer ("#")
substitution: each binding (k, v) contributes the string pattern pair. -/
def strOnlyReplacer (binds : List (String × String)) : Replacer :=
  ⟨binds.map (fun kv => ("\x7b\x7b" ++ kv.1 ++ "\x7d\x7d", kv.2)), []⟩

/-- Declarative value of the r-th unrolled copy: the test with every variable
v substituted by `vars[v][r % len(vars[v])]` and the bindings recorded in the
description. -/
def expectedRep (t : Test) (vars : List (String × List String)) (r : Nat) : Test :=
  addVarDesc (t.substituteVariables (strOnlyReplacer (cycleBindings vars r)))
    (cycleBindings vars r)

-- ### NOW-variable offsets (variables.go, nowVariables)

/-- The offset computation inside `nowVariables` for a matched delta
submatch such as "+ 30s": trim the sign and trailing unit, `Atoi` the
digits, negate on a leading minus, scale by the unit — no scaling for 's',
60 for 'm', 60*60 for 'h' and 24*26*60 for 'd' (sic: the literal factor in
the source).  `none` models the panic on an unparsable number; the result is
in seconds. -/
def nowDeltaSeconds (delta : String) : Option Int :=
  if delta = "" then some 0
  else
    match parseInt (String.mk (((delta.data.drop 1).dropLast).dropWhile (fun c => c = ' '))) with
    | none => none
    | some n0 =>
      some ((if delta.data.headD ' ' = '-' then -n0 else n0) *
        (match delta.data.getLastD ' ' with
          | 'm' => (60 : Int)
          | 'h' => 60 * 60
          | 'd' => 24 * 26 * 60
          | _ => 1))

/-- The instant a NOW variable is bound to, in seconds relative to `now`
(`now.Add(off)`; the time formatting is not modelled). -/
def nowVarValue (now : Int) (delta : String) : Option Int :=
  (nowDeltaSeconds delta).map (fun off => now + off)

-- ### lcm and lcmOf (variables.go)

/-- The loop of `func lcm(m, n int)`:
a, b := m, n; for a != b, the smaller of a, b is advanced by its own start
value; fuel bounds the iterations, `none` meaning the loop has not finished
(the Go loop runs forever in that case or the fuel was too small; every use
below supplies provably sufficient fuel). -/
def lcmLoop (m n : Int) : Nat → Int → Int → Option Int
  | 0, a, b => if a = b then some a else none
  | fuel + 1, a, b =>
    if a = b then some a
    else if a < b then lcmLoop m n fuel (a + m) b
    else lcmLoop m n fuel a (b + n)

/-- `lcm(m, n)` run with fuel `2*|m*n|`, which the correctness theorem shows
is sufficient whenever `m, n ≥ 1`. -/
def lcmGo (m n : Int) : Option Int := lcmLoop m n (2 * m * n).natAbs m n

/-- The loop of `lcmOf`: the accumulator starts at 0; a zero accumulator is
replaced by the next length, otherwise combined through `lcm`. -/
def lcmOfGo : List (String × List String) → Int → Option Int
  | [], n => some n
  | kv :: rest, n =>
    if n = 0 then lcmOfGo rest (kv.2.length : Int)
    else
      match lcmGo n (kv.2.length : Int) with
      | none => none
      | some l => lcmOfGo rest l

/-- `func lcmOf(vars map[string][]string) int` from `variables.go`. -/
def lcmOf (vars : List (String × List String)) : Option Int := lcmOfGo vars 0

/-- Specification-side value of `lcmOf`: the fold of the mathematical lcm
with the same zero-skipping initialisation. -/
def lcmOfFold (vars : List (String × List String)) : Int :=
  vars.foldl
    (fun n kv => if n = 0 then (kv.2.length : Int) else (Int.lcm n kv.2.length : Int)) 0

-- ### The Image check (image.go; fingerprinting is a collaborator)

/-- Structured error outcomes of the `Image` check.  The `cantCheck...`
constructors stand for `CantCheck{...}` wrappings, the `malformed...` ones
for `MalformedCheck{...}`. -/
inductive ImgError where
  | cantCheckDecode
  | formatMismatch (got want : String)
  | widthMismatch (got want : Int)
  | heightMismatch (got want : Int)
  | cantCheckBadBMV
  | bmvMismatch
  | cantCheckBadColorHist
  | colorHistMismatch
  | malformedBMV
  | malformedColorHist
  | badFingerprintLength (len : Nat)
deriving DecidableEq, Repr

/-- A decoded response image: bounds (`Dx`, `Dy`) plus the abstract pixel
payload consumed by the fingerprint collaborator. -/
structure Decoded (P : Type) where
  pix : P
  dx : Int
  dy : Int

/-- The perceptual-fingerprint collaborator
(`github.com/vdobler/ht/fingerprint`): hash parsing, hashing of decoded
pixels, and the bounded deltas.  Deltas and thresholds are `ℚ` values (only
their ordering is ever used). -/
structure FingerprintLib (P B C : Type) where
  bmvHashFromString : String → Option B
  newBMVHash : P → B
  bmvDelta : B → B → Rat
  colorHistFromString : String → Option C
  newColorHist : P → C
  colorHistDelta : C → C → Rat

/-- The `Image` check configuration from `image.go`. -/
structure Image where
  Format : String := ""
  Width : Int := 0
  Height : Int := 0
  Fingerprint : String := ""
  Threshold : Rat := 0

/-- `func (c Image) Execute(t *Test) error` from `image.go`; the decode
outcome of the response body is passed as `Option (Decoded P × String)`
(image and format name), `none` for an undecodable body.  A 16-character
fingerprint takes the block-mean-value branch, a 24-character one the
color-histogram branch, anything else skips fingerprinting; a branch fails
exactly when its delta exceeds `Threshold`. -/
def Image.Execute {P B C : Type} (lib : FingerprintLib P B C) (c : Image)
    (decoded : Option (Decoded P × String)) : Option ImgError :=
  match decoded with
  | none => some ImgError.cantCheckDecode
  | some (img, format) =>
    if c.Format ≠ "" ∧ format ≠ c.Format then
      some (ImgError.formatMismatch format c.Format)
    else if 0 < c.Width ∧ c.Width ≠ img.dx then
      some (ImgError.widthMismatch img.dx c.Width)
    else if 0 < c.Height ∧ c.Height ≠ img.dy then
      some (ImgError.heightMismatch img.dy c.Height)
    else if c.Fingerprint.length = 16 then
      match lib.bmvHashFromString c.Fingerprint with
      | none => some ImgError.cantCheckBadBMV
      | some target =>
        if c.Threshold < lib.bmvDelta target (lib.newBMVHash img.pix) then
          some ImgError.bmvMismatch
        else none
    else if c.Fingerprint.length = 24 then
      match lib.colorHistFromString c.Fingerprint with
      | none => some ImgError.cantCheckBadColorHist
      | some target =>
        if c.Threshold < lib.colorHistDelta target (lib.newColorHist img.pix) then
          some ImgError.colorHistMismatch
        else none
    else none

/-- `func (i Image) Prepare() error` from `image.go`: fingerprint length 0
passes, 16 and 24 must parse in their respective encodings, any other
length is rejected. -/
def Image.Prepare {P B C : Type} (lib : FingerprintLib P B C) (c : Image) :
    Option ImgError :=
  match c.Fingerprint.length with
  | 0 => none
  | 16 =>
    match lib.bmvHashFromString c.Fingerprint with
    | none => some ImgError.malformedBMV
    | some _ => none
  | 24 =>
    match lib.colorHistFromString c.Fingerprint with
    | none => some ImgError.malformedColorHist
    | some _ => none
  | l => some (ImgError.badFingerprintLength l)

-- ### Concrete fixtures used by the witnesses

/-- A sub-check that always fails with the message "f". -/
def failCheck : Check Unit := ⟨none, fun _ => some (GoError.msg "f")⟩

/-- A sub-check that always passes. -/
def passCheck : Check Unit := ⟨none, fun _ => none⟩

/-- A sub-check whose `Prepare` fails with the given message. -/
def badCheck (s : String) : Check Unit := ⟨some (GoError.msg s), fun _ => none⟩

/-- A trivial fingerprint collaborator whose deltas are the two given
constants. -/
def constFpLib (d1 d2 : Rat) : FingerprintLib Unit Unit Unit :=
  ⟨fun _ => some (), fun _ => (), fun _ _ => d1,
   fun _ => some (), fun _ => (), fun _ _ => d2⟩

/-- A 16-hex-digit fingerprinted Image check for the witness. -/
def imgCheck16 : Image := { Fingerprint := "0123456789abcdef", Threshold := 0 }

/-- A 24-hex-digit fingerprinted Image check for the witness. -/
def imgCheck24 : Image := { Fingerprint := "0123456789abcdef01234567", Threshold := 0 }

/-- An Image check with no fingerprint for the witness. -/
def imgCheckNoFp : Image := {}

/-- A small templated test for the Repeat witness. -/
def sampleTest : Test :=
  { Name := "sample", Request := { URL := "\x7b\x7bA\x7d\x7d-\x7b\x7bB\x7d\x7d" } }

-- ### Helper lemmas about the combinator loops

theorem cons_map_range_shift (i n : Nat) :
    i :: List.map (fun k => i + 1 + k) (List.range n) =
      List.map (fun k => i + k) (List.range (n + 1)) := by
  rw [List.range_succ_eq_map, List.map_cons, List.map_map]
  have h2 : ((fun k => i + k) ∘ Nat.succ) = fun k => i + 1 + k := by
    funext k
    simp only [Function.comp_apply]
    omega
  rw [h2]
  simp

theorem anyOneRunTraced_fst {T : Type} (t : T) :
    ∀ (l : List (Check T)) (errs : List GoError) (i : Nat),
      (anyOneRunTraced t l errs i).1 = anyOneRun t l errs := by
  intro l
  induction l with
  | nil => intro errs i; rfl
  | cons c rest ih =>
    intro errs i
    simp only [anyOneRunTraced, anyOneRun]
    cases c.execute t with
    | none => rfl
    | some e => simpa using ih (errs ++ [e]) (i + 1)

theorem anyOneRun_pass {T : Type} (t : T) :
    ∀ (pre : List (Check T)) (c : Check T) (post : List (Check T))
      (errs : List GoError),
      (∀ d ∈ pre, (d.execute t).isSome) → c.execute t = none →
      anyOneRun t (pre ++ c :: post) errs = none := by
  intro pre
  induction pre with
  | nil =>
    intro c post errs _ hc
    show anyOneRun t (c :: post) errs = none
    unfold anyOneRun
    rw [hc]
  | cons d pre ih =>
    intro c post errs hpre hc
    have hd : (d.execute t).isSome := hpre d (List.mem_cons_self d pre)
    simp only [List.cons_append, anyOneRun]
    cases hde : d.execute t with
    | none => rfl
    | some e =>
      exact ih c post (errs ++ [e])
        (fun x hx => hpre x (List.mem_cons_of_mem d hx)) hc

theorem anyOneRunTraced_trace_pass {T : Type} (t : T) :
    ∀ (pre : List (Check T)) (c : Check T) (post : List (Check T))
      (errs : List GoError) (i : Nat),
      (∀ d ∈ pre, (d.execute t).isSome) → c.execute t = none →
      (anyOneRunTraced t (pre ++ c :: post) errs i).2 =
        (List.range (pre.length + 1)).map (fun k => i + k) := by
  intro pre
  induction pre with
  | nil =>
    intro c post errs i _ hc
    simp [anyOneRunTraced, hc, List.range_succ]
  | cons d pre ih =>
    intro c post errs i hpre hc
    have hd : (d.execute t).isSome := hpre d (List.mem_cons_self d pre)
    simp only [List.cons_append, anyOneRunTraced]
    cases hde : d.execute t with
    | none => rw [hde] at hd; simp at hd
    | some e =>
      have hrec := ih c post (errs ++ [e]) (i + 1)
        (fun x hx => hpre x (List.mem_cons_of_mem d hx)) hc
      simp only [List.append_eq] at hrec ⊢
      rw [hrec, List.length_cons]
      exact cons_map_range_shift i (pre.length + 1)

theorem anyOneRun_all_fail {T : Type} (t : T) :
    ∀ (l : List (Check T)) (es errs : List GoError),
      l.map (fun d => d.execute t) = es.map some →
      anyOneRun t l errs = some (GoError.list (errs ++ es)) := by
  intro l
  induction l with
  | nil =>
    intro es errs h
    have : es = [] := by
      cases es with
      | nil => rfl
      | cons e es => simp at h
    subst this
    simp [anyOneRun]
  | cons c rest ih =>
    intro es errs h
    cases es with
    | nil => simp at h
    | cons e es =>
      simp only [List.map_cons, List.cons.injEq] at h
      obtain ⟨hc, hrest⟩ := h
      simp only [anyOneRun, hc]
      rw [ih es (errs ++ [e]) hrest]
      simp

theorem noneRun_all_fail {T : Type} (t : T) :
    ∀ (l : List (Check T)) (i : Nat),
      (∀ d ∈ l, (d.execute t).isSome) → noneRun t l i = none := by
  intro l
  induction l with
  | nil => intro i _; rfl
  | cons c rest ih =>
    intro i h
    have hc : (c.execute t).isSome := h c (List.mem_cons_self c rest)
    simp only [noneRun]
    cases hce : c.execute t with
    | none => rw [hce] at hc; simp at hc
    | some e => exact ih (i + 1) (fun x hx => h x (List.mem_cons_of_mem c hx))

theorem noneRun_pass {T : Type} (t : T) :
    ∀ (pre : List (Check T)) (c : Check T) (post : List (Check T)) (i : Nat),
      (∀ d ∈ pre, (d.execute t).isSome) → c.execute t = none →
      noneRun t (pre ++ c :: post) i =
        some (GoError.msg ("check " ++ toString (i + pre.length + 1) ++ " passed")) := by
  intro pre
  induction pre with
  | nil =>
    intro c post i _ hc
    simp [noneRun, hc]
  | cons d pre ih =>
    intro c post i hpre hc
    have hd : (d.execute t).isSome := hpre d (List.mem_cons_self d pre)
    simp only [List.cons_append, noneRun]
    cases hde : d.execute t with
    | none => rw [hde] at hd; simp at hd
    | some e =>
      have hres := ih c post (i + 1)
        (fun x hx => hpre x (List.mem_cons_of_mem d hx)) hc
      show noneRun t (pre ++ c :: post) (i + 1) = _
      rw [hres, List.length_cons]
      have harg : i + 1 + pre.length + 1 = i + (pre.length + 1) + 1 := by omega
      rw [harg]

theorem noneRunTraced_fst {T : Type} (t : T) :
    ∀ (l : List (Check T)) (i : Nat),
      (noneRunTraced t l i).1 = noneRun t l i := by
  intro l
  induction l with
  | nil => intro i; rfl
  | cons c rest ih =>
    intro i
    simp only [noneRunTraced, noneRun]
    cases c.execute t with
    | none => rfl
    | some e => simpa using ih (i + 1)

theorem noneRunTraced_trace_pass {T : Type} (t : T) :
    ∀ (pre : List (Check T)) (c : Check T) (post : List (Check T)) (i : Nat),
      (∀ d ∈ pre, (d.execute t).isSome) → c.execute t = none →
      (noneRunTraced t (pre ++ c :: post) i).2 =
        (List.range (pre.length + 1)).map (fun k => i + k) := by
  intro pre
  induction pre with
  | nil =>
    intro c post i _ hc
    simp [noneRunTraced, hc, List.range_succ]
  | cons d pre ih =>
    intro c post i hpre hc
    have hd : (d.execute t).isSome := hpre d (List.mem_cons_self d pre)
    simp only [List.cons_append, noneRunTraced]
    cases hde : d.execute t with
    | none => rw [hde] at hd; simp at hd
    | some e =>
      have hrec := ih c post (i + 1)
        (fun x hx => hpre x (List.mem_cons_of_mem d hx)) hc
      simp only [List.append_eq] at hrec ⊢
      rw [hrec, List.length_cons]
      exact cons_map_range_shift i (pre.length + 1)

theorem noneRun_ne_none_iff {T : Type} (t : T) :
    ∀ (l : List (Check T)) (i : Nat),
      noneRun t l i ≠ none ↔ ∃ d ∈ l, d.execute t = none := by
  intro l
  induction l with
  | nil => intro i; simp [noneRun]
  | cons c rest ih =>
    intro i
    simp only [noneRun]
    cases hce : c.execute t with
    | none =>
      simp only [ne_eq, reduceCtorEq, not_false_eq_true, true_iff]
      exact ⟨c, List.mem_cons_self c rest, hce⟩
    | some e =>
      rw [ih (i + 1)]
      constructor
      · rintro ⟨d, hd, hde⟩
        exact ⟨d, List.mem_cons_of_mem c hd, hde⟩
      · rintro ⟨d, hd, hde⟩
        rcases List.mem_cons.mp hd with h | h
        · subst h; rw [hce] at hde; cases hde
        · exact ⟨d, h, hde⟩

theorem prepareTraced_spec {T : Type} :
    ∀ (l : List (Check T)) (i : Nat),
      prepareTraced l i = (prepareErrs l, (List.range l.length).map (fun k => i + k)) := by
  intro l
  induction l with
  | nil => intro i; rfl
  | cons c rest ih =>
    intro i
    cases hc : c.prepare with
    | none =>
      simp only [prepareTraced, hc, ih (i + 1), prepareErrs, List.length_cons]
      rw [cons_map_range_shift i rest.length]
    | some e =>
      simp only [prepareTraced, hc, ih (i + 1), prepareErrs, List.length_cons]
      rw [cons_map_range_shift i rest.length]

theorem prepareErrs_eq_filterMap {T : Type} :
    ∀ l : List (Check T), prepareErrs l = l.filterMap (fun c => c.prepare) := by
  intro l
  induction l with
  | nil => rfl
  | cons c rest ih =>
    simp only [prepareErrs, List.filterMap_cons]
    cases c.prepare with
    | none => exact ih
    | some e => rw [ih]

theorem prepareErrs_eq_nil_iff {T : Type} :
    ∀ l : List (Check T), prepareErrs l = [] ↔ ∀ c ∈ l, c.prepare = none := by
  intro l
  induction l with
  | nil => simp [prepareErrs]
  | cons c rest ih =>
    simp only [prepareErrs]
    cases hc : c.prepare with
    | none =>
      rw [ih]
      constructor
      · intro h d hd
        rcases List.mem_cons.mp hd with h' | h'
        · subst h'; exact hc
        · exact h d h'
      · intro h d hd
        exact h d (List.mem_cons_of_mem c hd)
    | some e =>
      simp only [reduceCtorEq, false_iff, not_forall]
      refine ⟨c, List.mem_cons_self c rest, ?_⟩
      simp [hc]

-- ### Claim theorems: boolean combinators (C1, C2, C3)

/-- C1: for every `AnyOne` combinator and every test, `Execute` runs the
sub-checks in declaration order and returns nil at the first sub-check whose
`Execute` returns nil, executing no later sub-check (the executed indices
are exactly `0 .. pre.length`); and whenever every sub-check errs, `Execute`
returns the aggregate `ErrorList` containing every sub-error in order. -/
theorem anyOne_short_circuit_and_aggregate {T : Type} (t : T)
    (pre post : List (Check T)) (c : Check T)
    (hpre : ∀ d ∈ pre, (d.execute t).isSome) (hc : c.execute t = none) :
    (AnyOne.mk (pre ++ c :: post)).Execute t = none
    ∧ ((AnyOne.mk (pre ++ c :: post)).ExecuteTraced t).2 = List.range (pre.length + 1)
    ∧ ∀ (of : List (Check T)) (es : List GoError),
        of.map (fun d => d.execute t) = es.map some →
        (AnyOne.mk of).Execute t = some (GoError.list es) := by
  refine ⟨?_, ?_, ?_⟩
  · exact anyOneRun_pass t pre c post [] hpre hc
  · show (anyOneRunTraced t (pre ++ c :: post) [] 0).2 = _
    rw [anyOneRunTraced_trace_pass t pre c post [] 0 hpre hc]
    simp
  · intro of es h
    show anyOneRun t of [] = _
    rw [anyOneRun_all_fail t of es [] h]
    simp

/-- C1 witness: with sub-checks [fail, pass, fail] the combinator passes and
only indices 0 and 1 execute; with [fail, fail] it returns the list of both
sub-errors. -/
theorem anyOne_short_circuit_and_aggregate_witness :
    (AnyOne.mk [failCheck, passCheck, failCheck]).Execute () = none
    ∧ ((AnyOne.mk [failCheck, passCheck, failCheck]).ExecuteTraced ()).2 = List.range 2
    ∧ (AnyOne.mk [failCheck, failCheck]).Execute ()
        = some (GoError.list [GoError.msg "f", GoError.msg "f"]) := by
  have h := anyOne_short_circuit_and_aggregate () [failCheck] [failCheck] passCheck
    (by intro d hd; rw [List.mem_singleton] at hd; subst hd; rfl) rfl
  exact ⟨h.1, h.2.1,
    h.2.2 [failCheck, failCheck] [GoError.msg "f", GoError.msg "f"] rfl⟩

/-- C2: `None.Execute` errs iff at least one sub-check passes; it evaluates
sub-checks in declaration order, stops at the first passing one (executed
indices exactly `0 .. pre.length`) reporting that sub-check (the 0-based
index `pre.length`, rendered 1-based as "check pre.length+1 passed"); when
every sub-check fails it returns nil. -/
theorem none_execute_reports_first_pass {T : Type} (t : T)
    (pre post : List (Check T)) (c : Check T)
    (hpre : ∀ d ∈ pre, (d.execute t).isSome) (hc : c.execute t = none) :
    (None.mk (pre ++ c :: post)).Execute t
        = some (GoError.msg ("check " ++ toString (pre.length + 1) ++ " passed"))
    ∧ ((None.mk (pre ++ c :: post)).ExecuteTraced t).2 = List.range (pre.length + 1)
    ∧ (∀ of : List (Check T),
        ((None.mk of).Execute t ≠ none ↔ ∃ d ∈ of, d.execute t = none))
    ∧ (∀ of : List (Check T),
        (∀ d ∈ of, (d.execute t).isSome) → (None.mk of).Execute t = none) := by
  refine ⟨?_, ?_, ?_, ?_⟩
  · show noneRun t (pre ++ c :: post) 0 = _
    rw [noneRun_pass t pre c post 0 hpre hc]
    have harg : 0 + pre.length + 1 = pre.length + 1 := by omega
    rw [harg]
  · show (noneRunTraced t (pre ++ c :: post) 0).2 = _
    rw [noneRunTraced_trace_pass t pre c post 0 hpre hc]
    simp
  · intro of
    exact noneRun_ne_none_iff t of 0
  · intro of h
    exact noneRun_all_fail t of 0 h

/-- C2 witness: [fail, fail] succeeds; [fail, pass] fails reporting the
sub-check at 0-based index 1 (message "check 2 passed"), having executed only
indices 0 and 1. -/
theorem none_execute_reports_first_pass_witness :
    (None.mk [failCheck, passCheck]).Execute ()
        = some (GoError.msg ("check " ++ toString 2 ++ " passed"))
    ∧ ((None.mk [failCheck, passCheck]).ExecuteTraced ()).2 = List.range 2
    ∧ (None.mk [failCheck, failCheck]).Execute () = none := by
  have h := none_execute_reports_first_pass () [failCheck] [] passCheck
    (by intro d hd; rw [List.mem_singleton] at hd; subst hd; rfl) rfl
  refine ⟨h.1, h.2.1, ?_⟩
  exact h.2.2.2 [failCheck, failCheck]
    (by intro d hd; rcases List.mem_cons.mp hd with h' | h' <;> simp_all [failCheck])

/-- C3: for both boolean combinators, `Prepare` runs every sub-check's
`Prepare` (the traced call indices are all of `0 .. n-1`, never
short-circuited), returns nil iff no sub-check's `Prepare` errs, and
otherwise the aggregate of all `Prepare` errors in order; in particular two
malformed sub-checks both get reported. -/
theorem boolean_prepare_exhaustive {T : Type} (of : List (Check T)) :
    (prepareTraced of 0).2 = List.range of.length
    ∧ ((AnyOne.mk of).Prepare = none ↔ ∀ c ∈ of, c.prepare = none)
    ∧ (AnyOne.mk of).Prepare = (None.mk of).Prepare
    ∧ (prepareErrs of ≠ [] →
        (AnyOne.mk of).Prepare
          = some (GoError.list (of.filterMap (fun c => c.prepare))))
    ∧ ∀ (e1 e2 : GoError) (f g : T → Option GoError),
        (AnyOne.mk [Check.mk (some e1) f, Check.mk (some e2) g]).Prepare
          = some (GoError.list [e1, e2]) := by
  refine ⟨?_, ?_, rfl, ?_, ?_⟩
  · rw [prepareTraced_spec]
    simp
  · rw [← prepareErrs_eq_nil_iff]
    show (if (prepareErrs of).isEmpty then none
        else some (GoError.list (prepareErrs of))) = none ↔ prepareErrs of = []
    cases hp : prepareErrs of with
    | nil => simp
    | cons e es => simp
  · intro hne
    show (if (prepareErrs of).isEmpty then none
        else some (GoError.list (prepareErrs of))) = _
    rw [← prepareErrs_eq_filterMap]
    cases hp : prepareErrs of with
    | nil => exact absurd hp hne
    | cons e es => simp
  · intro e1 e2 f g
    rfl

/-- C3 witness: a combinator with two malformed sub-checks reports both
errors (not just the first), the traced `Prepare` touches every index, and a
combinator of well-formed sub-checks prepares to nil. -/
theorem boolean_prepare_exhaustive_witness :
    (prepareTraced [badCheck "b1", badCheck "b2"] 0).2 = List.range 2
    ∧ (AnyOne.mk [badCheck "b1", badCheck "b2"]).Prepare
        = some (GoError.list [GoError.msg "b1", GoError.msg "b2"])
    ∧ (None.mk (T := Unit) [badCheck "b1", badCheck "b2"]).Prepare
        = some (GoError.list [GoError.msg "b1", GoError.msg "b2"])
    ∧ (AnyOne.mk [passCheck, failCheck]).Prepare = none := by
  have h := boolean_prepare_exhaustive [badCheck "b1", badCheck "b2"]
  have h2 := boolean_prepare_exhaustive [passCheck, failCheck]
  refine ⟨h.1, ?_, ?_, ?_⟩
  · exact h.2.2.2.2 (GoError.msg "b1") (GoError.msg "b2") (fun _ => none) (fun _ => none)
  · rw [← h.2.2.1]
    exact h.2.2.2.2 (GoError.msg "b1") (GoError.msg "b2") (fun _ => none) (fun _ => none)
  · exact h2.2.1.mpr
      (by intro d hd; rcases List.mem_cons.mp hd with h' | h' <;> simp_all [passCheck, failCheck])

-- ### Claim theorems: Status order and exit codes (C4, C5)

theorem Status.val_inj : ∀ {s u : Status}, s.val = u.val → s = u := by
  intro s u h
  cases s <;> cases u <;> first | rfl | (simp [Status.val] at h)

theorem Status.le_max_left (s u : Status) : Status.le s (Status.max s u) := by
  unfold Status.max Status.le
  split <;> omega

theorem Status.le_max_right (s u : Status) : Status.le u (Status.max s u) := by
  unfold Status.max Status.le
  split <;> omega

theorem foldl_statusMax_le : ∀ (l : List Status) (a : Status),
    Status.le a (l.foldl Status.max a)
    ∧ ∀ s ∈ l, Status.le s (l.foldl Status.max a) := by
  intro l
  induction l with
  | nil =>
    intro a
    refine ⟨?_, ?_⟩
    · simp only [List.foldl_nil]
      exact Nat.le_refl a.val
    · intro s hs
      cases hs
  | cons b l ih =>
    intro a
    simp only [List.foldl_cons]
    refine ⟨?_, ?_⟩
    · have h1 := Status.le_max_left a b
      have h2 := (ih (Status.max a b)).1
      unfold Status.le at h1 h2 ⊢
      omega
    · intro s hs
      rcases List.mem_cons.mp hs with h' | h'
      · subst h'
        have h1 := Status.le_max_right a s
        have h2 := (ih (Status.max a s)).1
        unfold Status.le at h1 h2 ⊢
        omega
      · exact (ih (Status.max a b)).2 s h'

theorem foldl_statusMax_mem : ∀ (l : List Status) (a : Status),
    l.foldl Status.max a = a ∨ l.foldl Status.max a ∈ l := by
  intro l
  induction l with
  | nil => intro a; exact Or.inl rfl
  | cons b l ih =>
    intro a
    simp only [List.foldl_cons]
    rcases ih (Status.max a b) with h | h
    · rw [h]
      unfold Status.max
      split
      · exact Or.inr (List.mem_cons_self b l)
      · exact Or.inl rfl
    · exact Or.inr (List.mem_cons_of_mem b h)

/-- C4: `Status` is a total (strict) order on exactly the six values, chained
NotRun < Skipped < Pass < Fail < Error < Bogus, with NotRun least; hence the
maximum-over-children rollup of every non-empty list of child statuses is a
well-defined member of the list dominating all its elements. -/
theorem status_total_order_rollup :
    ([Status.NotRun, Status.Skipped, Status.Pass, Status.Fail, Status.Error,
        Status.Bogus].Nodup
      ∧ ∀ s : Status, s ∈ [Status.NotRun, Status.Skipped, Status.Pass,
          Status.Fail, Status.Error, Status.Bogus])
    ∧ List.Chain' Status.lt [Status.NotRun, Status.Skipped, Status.Pass,
        Status.Fail, Status.Error, Status.Bogus]
    ∧ (∀ s u : Status, Status.lt s u ∨ s = u ∨ Status.lt u s)
    ∧ (∀ s u v : Status, Status.lt s u → Status.lt u v → Status.lt s v)
    ∧ (∀ s u : Status, Status.le s u → Status.le u s → s = u)
    ∧ (∀ s : Status, ¬ Status.lt s s)
    ∧ (∀ s : Status, Status.le Status.NotRun s)
    ∧ ∀ l : List Status, l ≠ [] →
        statusMax l ∈ l ∧ ∀ s ∈ l, Status.le s (statusMax l) := by
  refine ⟨⟨by decide, ?_⟩, ?_, ?_, ?_, ?_, ?_, ?_, ?_⟩
  · intro s
    cases s <;> simp
  · simp only [List.chain'_cons, List.chain'_singleton, and_true]
    refine ⟨?_, ?_, ?_, ?_, ?_⟩ <;> decide
  · intro s u
    rcases Nat.lt_trichotomy s.val u.val with h | h | h
    · exact Or.inl h
    · exact Or.inr (Or.inl (Status.val_inj h))
    · exact Or.inr (Or.inr h)
  · intro s u v h1 h2
    exact Nat.lt_trans h1 h2
  · intro s u h1 h2
    exact Status.val_inj (Nat.le_antisymm h1 h2)
  · intro s
    exact Nat.lt_irrefl s.val
  · intro s
    exact Nat.zero_le s.val
  · intro l hl
    refine ⟨?_, (foldl_statusMax_le l Status.NotRun).2⟩
    rcases foldl_statusMax_mem l Status.NotRun with h | h
    · cases l with
      | nil => exact absurd rfl hl
      | cons b l' =>
        have hb : Status.le b (statusMax (b :: l')) :=
          (foldl_statusMax_le (b :: l') Status.NotRun).2 b (List.mem_cons_self b l')
        have hfold : statusMax (b :: l') = Status.NotRun := h
        have hb' : b = Status.NotRun := by
          apply Status.val_inj
          rw [hfold] at hb
          unfold Status.le at hb
          have h0 : Status.val Status.NotRun = 0 := rfl
          rw [h0] at hb ⊢
          omega
        rw [hfold, ← hb']
        exact List.mem_cons_self b l'
    · exact h

/-- C4 witness: the rollup of the concrete non-empty list [Pass, Fail] is a
member of the list and dominates every element. -/
theorem status_total_order_rollup_witness :
    statusMax [Status.Pass, Status.Fail] ∈ [Status.Pass, Status.Fail]
    ∧ ∀ s ∈ [Status.Pass, Status.Fail],
        Status.le s (statusMax [Status.Pass, Status.Fail]) :=
  status_total_order_rollup.2.2.2.2.2.2.2 [Status.Pass, Status.Fail] (by decide)

theorem tally_totalBogus (a : ExecTotals) (s : Status) :
    (tallyStatus a s).totalBogus
      = a.totalBogus + (if s = Status.Bogus then 1 else 0) := by
  cases s <;> simp [tallyStatus]

theorem tally_totalError (a : ExecTotals) (s : Status) :
    (tallyStatus a s).totalError
      = a.totalError + (if s = Status.Error then 1 else 0) := by
  cases s <;> simp [tallyStatus]

theorem tally_totalFailed (a : ExecTotals) (s : Status) :
    (tallyStatus a s).totalFailed
      = a.totalFailed + (if s = Status.Fail then 1 else 0) := by
  cases s <;> simp [tallyStatus]

theorem foldl_tally_bogus : ∀ (l : List Status) (a : ExecTotals),
    ((l.foldl tallyStatus a).totalBogus > 0 ↔ a.totalBogus > 0 ∨ Status.Bogus ∈ l) := by
  intro l
  induction l with
  | nil => intro a; simp
  | cons s l ih =>
    intro a
    simp only [List.foldl_cons]
    rw [ih, tally_totalBogus]
    by_cases hs : s = Status.Bogus
    · subst hs
      simp [List.mem_cons]
    · have hs' : ¬ (Status.Bogus = s) := fun h => hs h.symm
      simp [List.mem_cons, hs, hs']

theorem foldl_tally_error : ∀ (l : List Status) (a : ExecTotals),
    ((l.foldl tallyStatus a).totalError > 0 ↔ a.totalError > 0 ∨ Status.Error ∈ l) := by
  intro l
  induction l with
  | nil => intro a; simp
  | cons s l ih =>
    intro a
    simp only [List.foldl_cons]
    rw [ih, tally_totalError]
    by_cases hs : s = Status.Error
    · subst hs
      simp [List.mem_cons]
    · have hs' : ¬ (Status.Error = s) := fun h => hs h.symm
      simp [List.mem_cons, hs, hs']

theorem foldl_tally_failed : ∀ (l : List Status) (a : ExecTotals),
    ((l.foldl tallyStatus a).totalFailed > 0 ↔ a.totalFailed > 0 ∨ Status.Fail ∈ l) := by
  intro l
  induction l with
  | nil => intro a; simp
  | cons s l ih =>
    intro a
    simp only [List.foldl_cons]
    rw [ih, tally_totalFailed]
    by_cases hs : s = Status.Fail
    · subst hs
      simp [List.mem_cons]
    · have hs' : ¬ (Status.Fail = s) := fun h => hs h.symm
      simp [List.mem_cons, hs, hs']

theorem execTotals_bogus_pos (l : List Status) :
    (execTotals l).totalBogus > 0 ↔ Status.Bogus ∈ l := by
  have h := foldl_tally_bogus l ⟨0, 0, 0, 0, 0, 0⟩
  simpa [execTotals] using h

theorem execTotals_error_pos (l : List Status) :
    (execTotals l).totalError > 0 ↔ Status.Error ∈ l := by
  have h := foldl_tally_error l ⟨0, 0, 0, 0, 0, 0⟩
  simpa [execTotals] using h

theorem execTotals_failed_pos (l : List Status) :
    (execTotals l).totalFailed > 0 ↔ Status.Fail ∈ l := by
  have h := foldl_tally_failed l ⟨0, 0, 0, 0, 0, 0⟩
  simpa [execTotals] using h

/-- C5: the process exit code of a run is determined from the executed tests'
statuses in escalating priority — 3 with any Bogus, else 2 with any Error,
else 1 with any Fail, else 0. -/
theorem exit_code_escalation (l : List Status) :
    exitCode l =
      if Status.Bogus ∈ l then 3
      else if Status.Error ∈ l then 2
      else if Status.Fail ∈ l then 1
      else 0 := by
  simp only [exitCode]
  simp only [execTotals_bogus_pos, execTotals_error_pos, execTotals_failed_pos]

/-- C5 witness: concrete runs hitting each priority level. -/
theorem exit_code_escalation_witness :
    exitCode [Status.Pass, Status.Fail, Status.Error, Status.Bogus] = 3
    ∧ exitCode [Status.Pass, Status.Fail, Status.Error] = 2
    ∧ exitCode [Status.Pass, Status.Fail] = 1
    ∧ exitCode [Status.Pass, Status.Skipped] = 0 := by
  refine ⟨?_, ?_, ?_, ?_⟩
  · rw [exit_code_escalation]
    decide
  · rw [exit_code_escalation]
    decide
  · rw [exit_code_escalation]
    decide
  · rw [exit_code_escalation]
    decide

-- ### Claim theorems: Condition occurrence counting (C6)

/-- C6: for a Condition with `Contains` configured, `Equals` unset and the
remaining predicate fields at their zero values, `Fulfilled(s)` evaluates
occurrence counting against `Count`: Count = 0 succeeds iff the pattern
occurs at least once in s, Count = N > 0 iff it occurs exactly N times,
Count < 0 iff it occurs zero times (forbidden).  (Spec-modelled: the
evaluator is not part of the source snapshot.) -/
theorem condition_count_semantics (p s : String) (count : Int) (hp : p ≠ "") :
    (count = 0 →
      (Condition.Fulfilled { Contains := p, Count := count } s = none
        ↔ 1 ≤ countOcc p s))
    ∧ (0 < count →
      (Condition.Fulfilled { Contains := p, Count := count } s = none
        ↔ (countOcc p s : Int) = count))
    ∧ (count < 0 →
      (Condition.Fulfilled { Contains := p, Count := count } s = none
        ↔ countOcc p s = 0)) := by
  have key : Condition.Fulfilled { Contains := p, Count := count } s
      = containsCheck p count s := by
    cases hc : containsCheck p count s with
    | none => simp [Condition.Fulfilled, hp, hc, lengthCheck, numericCheck]
    | some e => simp [Condition.Fulfilled, hp, hc]
  refine ⟨?_, ?_, ?_⟩
  · intro h0
    rw [key]
    by_cases ho : countOcc p s > 0
    · simp [containsCheck, h0, ho]
      omega
    · simp [containsCheck, h0, ho]
      omega
  · intro hpos
    rw [key]
    have h0 : ¬ count = 0 := by omega
    by_cases he : (countOcc p s : Int) = count
    · simp [containsCheck, h0, hpos, he]
    · simp [containsCheck, h0, hpos, he]
  · intro hneg
    rw [key]
    have h0 : ¬ count = 0 := by omega
    have hpos : ¬ count > 0 := by omega
    by_cases he : countOcc p s = 0
    · simp [containsCheck, h0, hpos, he]
    · simp [containsCheck, h0, hpos, he]

/-- C6 witness: "oo" occurs exactly twice in "foobarfoobar", so Count = 2
passes; "waz" does not occur, so Count = -1 (forbidden) passes. -/
theorem condition_count_semantics_witness :
    Condition.Fulfilled { Contains := "oo", Count := 2 } "foobarfoobar" = none
    ∧ countOcc "oo" "foobarfoobar" = 2
    ∧ Condition.Fulfilled { Contains := "waz", Count := -1 } "foobarfoobar" = none := by
  have h1 := (condition_count_semantics "oo" "foobarfoobar" 2 (by decide)).2.1 (by decide)
  have h2 := (condition_count_semantics "waz" "foobarfoobar" (-1) (by decide)).2.2 (by decide)
  exact ⟨h1.mpr (by decide), by decide, h2.mpr (by decide)⟩

-- ### Claim theorems: Repeat / unrolling (C7)

theorem map_range_succ_shift {α : Type} (f : Nat → α) (n : Nat) :
    (List.range (n + 1)).map f = f 0 :: (List.range n).map (fun i => f (i + 1)) := by
  rw [List.range_succ_eq_map, List.map_cons, List.map_map]
  rfl

theorem newReplacer_no_hash :
    ∀ (binds : List (String × String)),
      (∀ kv ∈ binds, kv.1.data.take 1 ≠ ['#']) →
      newReplacer binds = some (strOnlyReplacer binds) := by
  intro binds
  induction binds with
  | nil => intro _; rfl
  | cons kv rest ih =>
    intro h
    have hk : kv.1.data.take 1 ≠ ['#'] := h kv (List.mem_cons_self kv rest)
    have hrest := ih (fun x hx => h x (List.mem_cons_of_mem kv hx))
    cases kv with
    | mk k v =>
      simp only [newReplacer, if_neg hk, hrest, strOnlyReplacer, List.map_cons]

theorem curVarsAt_nonempty (vars : List (String × List String)) (r : Nat)
    (h : ∀ kv ∈ vars, kv.2 ≠ []) :
    curVarsAt vars r = some (cycleBindings vars r) := by
  unfold curVarsAt
  rw [if_pos]
  rw [List.all_eq_true]
  intro kv hkv
  have := h kv hkv
  cases hl : kv.2 with
  | nil => exact absurd hl this
  | cons x xs => simp [hl]

theorem cycleBindings_keys (vars : List (String × List String)) (r : Nat)
    (hkeys : ∀ kv ∈ vars, kv.1.data.take 1 ≠ ['#']) :
    ∀ kv ∈ cycleBindings vars r, kv.1.data.take 1 ≠ ['#'] := by
  intro kv hkv
  unfold cycleBindings at hkv
  rcases List.mem_map.mp hkv with ⟨kv0, hkv0, hEq⟩
  have := hkeys kv0 hkv0
  rw [← hEq]
  exact this

theorem repOne_spec (t : Test) (vars : List (String × List String)) (r : Nat)
    (hne : ∀ kv ∈ vars, kv.2 ≠ [])
    (hkeys : ∀ kv ∈ vars, kv.1.data.take 1 ≠ ['#']) :
    repOne t vars r = some (expectedRep t vars r) := by
  simp only [repOne, curVarsAt_nonempty vars r hne,
    newReplacer_no_hash (cycleBindings vars r) (cycleBindings_keys vars r hkeys),
    expectedRep]

theorem repeatLoop_spec (t : Test) (vars : List (String × List String))
    (hne : ∀ kv ∈ vars, kv.2 ≠ [])
    (hkeys : ∀ kv ∈ vars, kv.1.data.take 1 ≠ ['#']) :
    ∀ (k r0 : Nat),
      repeatLoop t vars k r0
        = some ((List.range k).map (fun i => expectedRep t vars (r0 + i))) := by
  intro k
  induction k with
  | zero => intro r0; rfl
  | succ k ih =>
    intro r0
    unfold repeatLoop
    rw [repOne_spec t vars r0 hne hkeys, ih (r0 + 1)]
    rw [map_range_succ_shift (fun i => expectedRep t vars (r0 + i)) k]
    have harg : ∀ i : Nat, r0 + 1 + i = r0 + (i + 1) := by intro i; omega
    simp only [Nat.add_zero]
    congr 2
    apply List.map_congr_left
    intro i _
    rw [harg i]

/-- C7 counterexample: the variable map with the single entry "#x" ↦ ["y"]
has only non-empty value lists, yet `Repeat` with count 1 returns an error
(`newReplacer` cannot parse the integer-substitution key "#x"), not one
substituted copy. -/
theorem repeat_hash_key_cex :
    (∀ kv ∈ [("#x", ["y"])], kv.2 ≠ ([] : List String))
    ∧ Repeat {} 1 [("#x", ["y"])] = none := by
  exact ⟨by decide, rfl⟩

/-- C7 (amended): for every test, every count, and every variable map whose
value lists are all non-empty and with no integer-substitution ("#"-prefixed)
keys, `Repeat` returns exactly `count` substituted copies, the r-th copy
(0-based) substituting every variable v by `vars[v][r % len(vars[v])]`
(values cycle through their lists per repetition). -/
theorem repeat_unroll_cycles (t : Test) (count : Nat)
    (vars : List (String × List String))
    (hne : ∀ kv ∈ vars, kv.2 ≠ [])
    (hkeys : ∀ kv ∈ vars, kv.1.data.take 1 ≠ ['#']) :
    Repeat t count vars
        = some ((List.range count).map (fun r => expectedRep t vars r))
    ∧ ∀ reps, Repeat t count vars = some reps →
        reps.length = count
        ∧ ∀ r, r < count → reps.getD r t = expectedRep t vars r := by
  have hmain : Repeat t count vars
      = some ((List.range count).map (fun r => expectedRep t vars r)) := by
    unfold Repeat
    rw [repeatLoop_spec t vars hne hkeys count 0]
    congr 1
    apply List.map_congr_left
    intro i _
    rw [Nat.zero_add]
  refine ⟨hmain, ?_⟩
  intro reps hreps
  rw [hmain] at hreps
  have hr : reps = (List.range count).map (fun r => expectedRep t vars r) :=
    Option.some.inj hreps.symm
  subst hr
  refine ⟨by simp, ?_⟩
  intro r hrc
  rw [List.getD_eq_getElem?_getD, List.getElem?_map]
  rw [List.getElem?_range hrc]
  rfl

/-- C7 witness: unrolling a templated URL twice over A ↦ [x, y] and
B ↦ [1, 2, 3] yields URLs "x-1" then "y-2" — per-repetition cycling. -/
theorem repeat_unroll_cycles_witness :
    Repeat sampleTest 2 [("A", ["x", "y"]), ("B", ["1", "2", "3"])]
        = some [expectedRep sampleTest [("A", ["x", "y"]), ("B", ["1", "2", "3"])] 0,
            expectedRep sampleTest [("A", ["x", "y"]), ("B", ["1", "2", "3"])] 1]
    ∧ (expectedRep sampleTest [("A", ["x", "y"]), ("B", ["1", "2", "3"])] 0).Request.URL
        = "x-1"
    ∧ (expectedRep sampleTest [("A", ["x", "y"]), ("B", ["1", "2", "3"])] 1).Request.URL
        = "y-2" := by
  have h := repeat_unroll_cycles sampleTest 2 [("A", ["x", "y"]), ("B", ["1", "2", "3"])]
    (by decide) (by decide)
  refine ⟨?_, by decide, by decide⟩
  rw [h.1]
  rfl

-- ### Claim theorems: NOW-variable units (C9)

theorem nowDelta_plus_unit (ds : String) (u : Char) (n : Int)
    (hds : parseInt (String.mk (ds.data.dropWhile (fun c => c = ' '))) = some n) :
    nowDeltaSeconds (String.mk ('+' :: ds.data ++ [u]))
      = some (n * (match u with
          | 'm' => (60 : Int)
          | 'h' => 60 * 60
          | 'd' => 24 * 26 * 60
          | _ => 1)) := by
  have hne : (String.mk ('+' :: ds.data ++ [u])) ≠ "" := by
    intro h
    exact List.cons_ne_nil '+' (ds.data ++ [u]) (congrArg String.data h)
  have hnum : (((String.mk ('+' :: ds.data ++ [u])).data.drop 1).dropLast).dropWhile
        (fun c => c = ' ') = ds.data.dropWhile (fun c => c = ' ') := by
    show ((ds.data ++ [u]).dropLast).dropWhile (fun c => c = ' ') = _
    congr 1
    simp
  have hhead : (String.mk ('+' :: ds.data ++ [u])).data.headD ' ' = '+' := rfl
  have hlast : (String.mk ('+' :: ds.data ++ [u])).data.getLastD ' ' = u := by
    show ('+' :: (ds.data ++ [u])).getLastD ' ' = u
    rw [List.getLastD_eq_getLast?]
    rw [show ('+' :: (ds.data ++ [u])) = ('+' :: ds.data) ++ [u] from rfl]
    rw [List.getLast?_concat]
    rfl
  unfold nowDeltaSeconds
  rw [if_neg hne, hnum, hds, hhead, hlast]
  rfl

/-- C9: a NOW variable with delta "+<digits>d" is bound to the current time
shifted by n · 24·26·60 = 37440 seconds per day unit — not n · 86400 — while
the s, m and h units shift by n, 60 n and 3600 n seconds. -/
theorem now_day_unit_seconds (ds : String) (n : Int)
    (hds : parseInt (String.mk (ds.data.dropWhile (fun c => c = ' '))) = some n)
    (hn : 1 ≤ n) :
    nowDeltaSeconds (String.mk ('+' :: ds.data ++ ['d'])) = some (n * (24 * 26 * 60))
    ∧ nowDeltaSeconds (String.mk ('+' :: ds.data ++ ['d'])) = some (n * 37440)
    ∧ nowDeltaSeconds (String.mk ('+' :: ds.data ++ ['d'])) ≠ some (n * 86400)
    ∧ nowDeltaSeconds (String.mk ('+' :: ds.data ++ ['s'])) = some (n * 1)
    ∧ nowDeltaSeconds (String.mk ('+' :: ds.data ++ ['m'])) = some (n * 60)
    ∧ nowDeltaSeconds (String.mk ('+' :: ds.data ++ ['h'])) = some (n * (60 * 60))
    ∧ ∀ now : Int,
        nowVarValue now (String.mk ('+' :: ds.data ++ ['d']))
          = some (now + n * 37440) := by
  have hd := nowDelta_plus_unit ds 'd' n hds
  have hs := nowDelta_plus_unit ds 's' n hds
  have hm := nowDelta_plus_unit ds 'm' n hds
  have hh := nowDelta_plus_unit ds 'h' n hds
  refine ⟨hd, hd, ?_, hs, hm, hh, ?_⟩
  · have hd37 : nowDeltaSeconds (String.mk ('+' :: ds.data ++ ['d']))
        = some (n * 37440) := hd
    rw [hd37]
    intro h
    have h2 := Option.some.inj h
    omega
  · intro now
    unfold nowVarValue
    rw [hd]
    rfl

/-- C9 witness: "+3d" yields an offset of 112320 = 3 · 37440 seconds
(instead of 3 days = 259200 seconds), and "+3h" yields 10800 seconds. -/
theorem now_day_unit_seconds_witness :
    nowDeltaSeconds (String.mk ('+' :: "3".data ++ ['d'])) = some 112320
    ∧ nowDeltaSeconds (String.mk ('+' :: "3".data ++ ['d'])) ≠ some (3 * 86400)
    ∧ nowDeltaSeconds (String.mk ('+' :: "3".data ++ ['h'])) = some 10800
    ∧ nowVarValue 1000 (String.mk ('+' :: "3".data ++ ['d'])) = some 113320 := by
  have h := now_day_unit_seconds "3" 3 (by decide) (by decide)
  refine ⟨?_, h.2.2.1, ?_, ?_⟩
  · rw [h.1]
    decide
  · rw [h.2.2.2.2.2.1]
    decide
  · rw [h.2.2.2.2.2.2 1000]
    decide

-- ### Claim theorems: lcm and lcmOf (C10)

theorem lcmLoop_reaches (m n : Int) (hm : 1 ≤ m) (hn : 1 ≤ n) :
    ∀ (fuel : Nat) (a b : Int),
      m ∣ a → n ∣ b → 1 ≤ a → 1 ≤ b →
      a ≤ (Int.lcm m n : Int) → b ≤ (Int.lcm m n : Int) →
      2 * (Int.lcm m n : Int) ≤ a + b + fuel →
      lcmLoop m n fuel a b = some (Int.lcm m n : Int) := by
  intro fuel
  induction fuel with
  | zero =>
    intro a b hma hnb ha hb haL hbL hfuel
    have ha' : a = (Int.lcm m n : Int) := by
      simp only [Nat.cast_ofNat, CharP.cast_eq_zero, add_zero] at hfuel
      omega
    have hb' : b = (Int.lcm m n : Int) := by
      simp only [Nat.cast_ofNat, CharP.cast_eq_zero, add_zero] at hfuel
      omega
    rw [ha', hb']
    simp [lcmLoop]
  | succ f ih =>
    intro a b hma hnb ha hb haL hbL hfuel
    by_cases hab : a = b
    · subst hab
      have hdvd : (Int.lcm m n : Int) ∣ a := Int.lcm_dvd hma hnb
      have hge : (Int.lcm m n : Int) ≤ a := Int.le_of_dvd (by omega) hdvd
      have haeq : a = (Int.lcm m n : Int) := le_antisymm haL hge
      rw [haeq]
      simp [lcmLoop]
    · have hfuel' : 2 * (Int.lcm m n : Int) ≤ a + b + f + 1 := by
        push_cast at hfuel
        omega
      simp only [lcmLoop, if_neg hab]
      by_cases hlt : a < b
      · rw [if_pos hlt]
        have hml : m ∣ (Int.lcm m n : Int) := @Int.dvd_lcm_left m n
        have hstep : m ∣ ((Int.lcm m n : Int) - a) := dvd_sub hml hma
        have hgap : m ≤ (Int.lcm m n : Int) - a := Int.le_of_dvd (by omega) hstep
        apply ih
        · exact dvd_add hma (dvd_refl m)
        · exact hnb
        · omega
        · exact hb
        · omega
        · exact hbL
        · omega
      · rw [if_neg hlt]
        have hnl : n ∣ (Int.lcm m n : Int) := @Int.dvd_lcm_right m n
        have hstep : n ∣ ((Int.lcm m n : Int) - b) := dvd_sub hnl hnb
        have hgap : n ≤ (Int.lcm m n : Int) - b := Int.le_of_dvd (by omega) hstep
        apply ih
        · exact hma
        · exact dvd_add hnb (dvd_refl n)
        · exact ha
        · omega
        · exact haL
        · omega
        · omega

theorem lcm_cast_pos (m n : Int) (hm : 1 ≤ m) (hn : 1 ≤ n) :
    1 ≤ (Int.lcm m n : Int) := by
  have h1 : 0 < m.natAbs := Int.natAbs_pos.mpr (by omega)
  have h2 : 0 < n.natAbs := Int.natAbs_pos.mpr (by omega)
  have h3 : 0 < Nat.lcm m.natAbs n.natAbs := Nat.lcm_pos h1 h2
  have h4 : 0 < Int.lcm m n := h3
  omega

theorem lcmGo_eq (m n : Int) (hm : 1 ≤ m) (hn : 1 ≤ n) :
    lcmGo m n = some (Int.lcm m n : Int) := by
  have hL1 : 1 ≤ (Int.lcm m n : Int) := lcm_cast_pos m n hm hn
  have hmL : m ≤ (Int.lcm m n : Int) := Int.le_of_dvd (by omega) (@Int.dvd_lcm_left m n)
  have hnL : n ≤ (Int.lcm m n : Int) := Int.le_of_dvd (by omega) (@Int.dvd_lcm_right m n)
  have hLmn : (Int.lcm m n : Int) ≤ m * n :=
    Int.le_of_dvd (by positivity) (Int.lcm_dvd (dvd_mul_right m n) (dvd_mul_left n m))
  have hfuel : ((2 * m * n).natAbs : Int) = 2 * m * n := by
    rw [Int.natAbs_of_nonneg (by positivity)]
  apply lcmLoop_reaches m n hm hn
  · exact dvd_refl m
  · exact dvd_refl n
  · exact hm
  · exact hn
  · exact hmL
  · exact hnL
  · rw [hfuel]
    nlinarith

theorem lcmOfGo_pos :
    ∀ (vars : List (String × List String)) (n : Int), 1 ≤ n →
      (∀ kv ∈ vars, kv.2 ≠ []) →
      lcmOfGo vars n
        = some (vars.foldl
            (fun acc kv =>
              if acc = 0 then (kv.2.length : Int) else (Int.lcm acc kv.2.length : Int))
            n) := by
  intro vars
  induction vars with
  | nil => intro n _ _; rfl
  | cons kv rest ih =>
    intro n hn h
    have hlen : kv.2 ≠ [] := h kv (List.mem_cons_self kv rest)
    have hlen1 : 1 ≤ (kv.2.length : Int) := by
      have := List.length_pos.mpr hlen
      omega
    have hn0 : ¬ n = 0 := by omega
    simp only [lcmOfGo, if_neg hn0, List.foldl_cons, if_neg hn0]
    rw [lcmGo_eq n (kv.2.length : Int) hn hlen1]
    exact ih (Int.lcm n kv.2.length : Int)
      (lcm_cast_pos n (kv.2.length : Int) hn hlen1)
      (fun x hx => h x (List.mem_cons_of_mem kv hx))

/-- C10 counterexample: the loop of `lcm` terminates at the non-positive
input m = n = 0 (immediately, returning 0), so it is not well-founded *only*
for strictly positive arguments; likewise `lcmOf` terminates on a map whose
single value list is empty. -/
theorem lcm_nonpositive_terminates_cex :
    lcmGo 0 0 = some 0
    ∧ ¬ (1 ≤ (0 : Int))
    ∧ lcmOf [("a", ([] : List String))] = some 0 := by
  exact ⟨rfl, by decide, rfl⟩

/-- C10 (amended): for m, n ≥ 1 the `lcm` loop terminates (2·m·n iterations
suffice) and returns the least common multiple; positivity is essential in
that the loop diverges for some non-positive inputs — lcm(3, 0) runs forever
— though not at all of them; accordingly `lcmOf` terminates with the
iterated lcm of the list lengths on every variable map whose value lists
are all non-empty. -/
theorem lcm_correct_on_positives :
    (∀ m n : Int, 1 ≤ m → 1 ≤ n → lcmGo m n = some (Int.lcm m n : Int))
    ∧ (∀ fuel : Nat, lcmLoop 3 0 fuel 3 0 = none)
    ∧ (∀ vars : List (String × List String),
        (∀ kv ∈ vars, kv.2 ≠ []) → lcmOf vars = some (lcmOfFold vars)) := by
  refine ⟨lcmGo_eq, ?_, ?_⟩
  · intro fuel
    induction fuel with
    | zero => rfl
    | succ f ih =>
      show lcmLoop 3 0 (f + 1) 3 0 = none
      simp only [lcmLoop]
      rw [if_neg (by decide : ¬ (3 : Int) = 0), if_neg (by decide : ¬ (3 : Int) < 0)]
      simpa using ih
  · intro vars h
    cases vars with
    | nil => rfl
    | cons kv rest =>
      have hlen : kv.2 ≠ [] := h kv (List.mem_cons_self kv rest)
      have hlen1 : 1 ≤ (kv.2.length : Int) := by
        have := List.length_pos.mpr hlen
        omega
      show lcmOfGo (kv :: rest) 0 = some (lcmOfFold (kv :: rest))
      simp only [lcmOfGo, if_pos rfl]
      rw [lcmOfGo_pos rest (kv.2.length : Int) hlen1
        (fun x hx => h x (List.mem_cons_of_mem kv hx))]
      simp [lcmOfFold]

/-- C10 witness: lcm(4, 6) terminates with 12; lcmOf of lists of lengths 4
and 6 is 12. -/
theorem lcm_correct_on_positives_witness :
    lcmGo 4 6 = some 12
    ∧ lcmOf [("a", ["1", "2", "3", "4"]), ("b", ["1", "2", "3", "4", "5", "6"])]
        = some 12
    ∧ lcmLoop 3 0 5 3 0 = none := by
  have h := lcm_correct_on_positives
  refine ⟨?_, ?_, h.2.1 5⟩
  · rw [h.1 4 6 (by decide) (by decide)]
    rfl
  · rw [h.2.2 [("a", ["1", "2", "3", "4"]), ("b", ["1", "2", "3", "4", "5", "6"])]
      (by decide)]
    rfl

-- ### Claim theorems: the Image check (C8)

/-- C8: for an Image check whose response body decodes as an image and whose
format/width/height constraints pass, a 16-character fingerprint is
interpreted as a block-mean-value hash and a 24-character one as a
color-histogram hash; in either case `Execute` fails exactly when the delta
between the configured and the received fingerprint exceeds `Threshold`
(delta = Threshold passes), and an empty fingerprint skips the comparison. -/
theorem image_fingerprint_threshold {P B C : Type} (lib : FingerprintLib P B C)
    (c : Image) (img : Decoded P) (format : String)
    (hf : c.Format = "" ∨ format = c.Format)
    (hw : c.Width ≤ 0 ∨ c.Width = img.dx)
    (hh : c.Height ≤ 0 ∨ c.Height = img.dy) :
    (∀ target, c.Fingerprint.length = 16 →
        lib.bmvHashFromString c.Fingerprint = some target →
        (Image.Execute lib c (some (img, format)) = none
          ↔ lib.bmvDelta target (lib.newBMVHash img.pix) ≤ c.Threshold))
    ∧ (∀ target, c.Fingerprint.length = 24 →
        lib.colorHistFromString c.Fingerprint = some target →
        (Image.Execute lib c (some (img, format)) = none
          ↔ lib.colorHistDelta target (lib.newColorHist img.pix) ≤ c.Threshold))
    ∧ (c.Fingerprint = "" → Image.Execute lib c (some (img, format)) = none) := by
  have hgf : ¬ (c.Format ≠ "" ∧ format ≠ c.Format) := by
    rintro ⟨h1, h2⟩
    rcases hf with h | h
    · exact h1 h
    · exact h2 h
  have hgw : ¬ (0 < c.Width ∧ c.Width ≠ img.dx) := by
    rintro ⟨h1, h2⟩
    rcases hw with h | h
    · omega
    · exact h2 h
  have hgh : ¬ (0 < c.Height ∧ c.Height ≠ img.dy) := by
    rintro ⟨h1, h2⟩
    rcases hh with h | h
    · omega
    · exact h2 h
  refine ⟨?_, ?_, ?_⟩
  · intro target h16 htgt
    simp only [Image.Execute, if_neg hgf, if_neg hgw, if_neg hgh, if_pos h16, htgt]
    by_cases hd : lib.bmvDelta target (lib.newBMVHash img.pix) ≤ c.Threshold
    · rw [if_neg (not_lt.mpr hd)]
      simp [hd]
    · rw [if_pos (lt_of_not_le hd)]
      simp [hd]
  · intro target h24 htgt
    have h16 : ¬ c.Fingerprint.length = 16 := by omega
    simp only [Image.Execute, if_neg hgf, if_neg hgw, if_neg hgh, if_neg h16,
      if_pos h24, htgt]
    by_cases hd : lib.colorHistDelta target (lib.newColorHist img.pix) ≤ c.Threshold
    · rw [if_neg (not_lt.mpr hd)]
      simp [hd]
    · rw [if_pos (lt_of_not_le hd)]
      simp [hd]
  · intro hfp
    have h0 : c.Fingerprint.length = 0 := by rw [hfp]; rfl
    have h16 : ¬ c.Fingerprint.length = 16 := by omega
    have h24 : ¬ c.Fingerprint.length = 24 := by omega
    simp only [Image.Execute, if_neg hgf, if_neg hgw, if_neg hgh, if_neg h16,
      if_neg h24]

/-- C8 witness: with a collaborator whose deltas equal the threshold exactly
(delta = Threshold = 0), both the 16- and the 24-digit fingerprint checks
pass, as does a check without a fingerprint. -/
theorem image_fingerprint_threshold_witness :
    Image.Execute (constFpLib 0 0) imgCheck16 (some (Decoded.mk () 1 1, "png")) = none
    ∧ Image.Execute (constFpLib 0 0) imgCheck24 (some (Decoded.mk () 1 1, "png")) = none
    ∧ Image.Execute (constFpLib 0 0) imgCheckNoFp (some (Decoded.mk () 1 1, "png")) = none := by
  have h16 := image_fingerprint_threshold (constFpLib 0 0) imgCheck16
    (Decoded.mk () 1 1) "png" (Or.inl rfl) (Or.inl (by decide)) (Or.inl (by decide))
  have h24 := image_fingerprint_threshold (constFpLib 0 0) imgCheck24
    (Decoded.mk () 1 1) "png" (Or.inl rfl) (Or.inl (by decide)) (Or.inl (by decide))
  have h0 := image_fingerprint_threshold (constFpLib 0 0) imgCheckNoFp
    (Decoded.mk () 1 1) "png" (Or.inl rfl) (Or.inl (by decide)) (Or.inl (by decide))
  refine ⟨?_, ?_, h0.2.2 rfl⟩
  · exact (h16.1 () (by decide) rfl).mpr (le_refl 0)
  · exact (h24.2.1 () (by decide) rfl).mpr (le_refl 0)

end Ht

namespace Ht

-- ### Validation of the spec-modelled Condition evaluator against the
-- conditionTests table of the repository, plus spot checks of the other
-- executable embeddings.
example : Condition.Fulfilled { Equals := "foobar" } "foobar" = none := by decide
example : Condition.Fulfilled { Equals := "barfoo" } "foobar"
    = some (CondError.unequal "\"foobar\"") := by decide
example : Condition.Fulfilled { Equals := "foobar" } "foobarbazwazturpot"
    = some (CondError.unequal "\"foobarbazwazturp\"...") := by decide
example : Condition.Fulfilled { PrefixPat := "foo" } "foobar" = none := by decide
example : Condition.Fulfilled { PrefixPat := "waz" } "foobar"
    = some (CondError.prefixMismatch "foo") := by decide
example : Condition.Fulfilled { PrefixPat := "wazwazwaz" } "foobar"
    = some (CondError.prefixMismatch "foobar") := by decide
example : Condition.Fulfilled { Suffix := "waz" } "foobar"
    = some (CondError.suffixMismatch "bar") := by decide
example : Condition.Fulfilled { PrefixPat := "waz", Suffix := "bar" } "foobar"
    = some (CondError.prefixMismatch "foo") := by decide
example : Condition.Fulfilled { Contains := "oo" } "foobarfoobar" = none := by decide
example : Condition.Fulfilled { Contains := "waz" } "foobarfoobar"
    = some CondError.notFound := by decide
example : Condition.Fulfilled { Contains := "waz", Count := -1 } "foobarfoobar" = none := by decide
example : Condition.Fulfilled { Contains := "oo", Count := -1 } "foobarfoobar"
    = some CondError.foundForbidden := by decide
example : Condition.Fulfilled { Contains := "oo", Count := 2 } "foobarfoobar" = none := by decide
example : Condition.Fulfilled { Contains := "obarf", Count := 1 } "foobarfoobar" = none := by decide
example : Condition.Fulfilled { Contains := "o", Count := 4 } "foobarfoobar" = none := by decide
example : Condition.Fulfilled { Contains := "foo", Count := 1 } "foobarfoobar"
    = some (CondError.foundWant 2 1) := by decide
example : Condition.Fulfilled { Min := 2 } "foobar" = none := by decide
example : Condition.Fulfilled { Min := 20 } "foobar" = some (CondError.tooShort 6) := by decide
example : Condition.Fulfilled { Max := 3 } "foobar" = some (CondError.tooLong 6) := by decide
example : Condition.Fulfilled { LessThan := some (Dec.mk 123 (-1)) } "3" = none := by decide
example : Condition.Fulfilled { GreaterThan := some (Dec.mk 123 (-1)) } "3"
    = some (CondError.notGreaterThan (Dec.mk 123 (-1)) (Dec.mk 3 0)) := by decide
example : Condition.Fulfilled { LessThan := some (Dec.mk 123 (-1)) } " \t3\n\r" = none := by decide
example : Condition.Fulfilled { LessThan := some (Dec.mk 456 0) } "800"
    = some (CondError.notLessThan (Dec.mk 456 0) (Dec.mk 800 0)) := by decide
example : Condition.Fulfilled { LessThan := some (Dec.mk 456 0) } (String.mk [squote, '-', '8', '.', '8', 'e', '1', squote]) = none := by decide
example : Condition.Fulfilled { LessThan := some (Dec.mk 456 0) } "XYZ"
    = some (CondError.parseError "XYZ") := by decide
example : Condition.Fulfilled { GreaterThan := some (Dec.mk 123 (-1)), LessThan := some (Dec.mk 456 0) } "200" = none := by decide
example : Condition.Fulfilled { Equals := "a", Min := 99 } "a" = none := by decide
example : lcmGo 4 6 = some 12 := by decide
example : lcmGo 0 0 = some 0 := by decide
example : nowDeltaSeconds "+3d" = some 112320 := by decide
example : nowDeltaSeconds "- 30s" = some (-30) := by decide
example : parseInt "3" = some 3 := by decide
example : exitCode [Status.Pass, Status.Fail] = 1 := by decide
example : exitCode [Status.Bogus, Status.Fail] = 3 := by decide
example : (Repeat sampleTest 2 [("A", ["x", "y"]), ("B", ["1", "2", "3"])]).map
    (fun l => l.map (fun t => t.Request.URL)) = some ["x-1", "y-2"] := by decide

end Ht
